import Mathlib

/-!
Verification of the domain-registry dialog and the resource-classification
page of the `tool1` repository.

The embedding follows the two source files:

* `src/component/DomainManagerDialog.vue` — the domain registry: state
  (`newDomain`, `domains`, `editingIndex`), the remote helpers
  (`fetchDomains`, `createDomain`, `updateDomain`, `deleteDomain`) and the
  handlers (`handleAddOrUpdateDomain`, `handleEditDomain`,
  `handleDeleteDomain`).  Remote calls are modelled by an `ApiResponse`
  value handed to each operation: `ok` is a body with `status === 200`,
  `badStatus` a body with any other status (carrying the optional
  `message` field), `transportError` a thrown transport error (carrying
  the error text).  Each operation returns the new state, the list of
  `ElMessage` texts it posted, and the list of remote endpoints it hit;
  an access that would throw a `TypeError` in the source (indexing
  `domains` out of range) is an `Except.error`.

* `src/pages/index.vue` — the classification page: state (`url`,
  `domains`, `selectedDomain`, `syncData`), `handleSync`, and the computed
  views `groupedRequests` / `requestTypes`.  The JS object built by the
  `reduce` is modelled as an insertion-ordered association list;
  `Object.keys` is modelled with the ECMAScript own-property-key order
  (keys that are canonical array indices first, in ascending numeric
  order, then the remaining string keys in insertion order); and the
  membership test `if (!acc[type])` is modelled with the prototype-chain
  lookup of a plain object: a key naming an `Object.prototype` property
  reads as a truthy inherited value, so the step throws a `TypeError`
  instead of grouping.
-/

namespace Tool1

/-- A row of the remote domain collection: `{ id, domain }` as mapped in
`fetchDomains` and pushed in `createDomain`. -/
structure DomainEntry where
  id : Nat
  domain : String
deriving DecidableEq

/-- Outcome of one remote HTTP call, as the source's `try`/`status` checks
distinguish them: a `status === 200` body with its payload, a non-200 body
with its optional `message` field, or a thrown transport error with its
text. -/
inductive ApiResponse (α : Type) where
  | ok (data : α)
  | badStatus (msg : Option String)
  | transportError (err : String)
deriving DecidableEq

/-- A remote endpoint hit by an operation, with its arguments. -/
inductive RemoteCall where
  | list
  | create (domain : String)
  | update (id : Nat) (domain : String)
  | delete (id : Nat)
deriving DecidableEq

/-- The dialog's reactive registry state: `newDomain`, `domains`,
`editingIndex`. -/
structure DialogState where
  newDomain : String
  domains : List DomainEntry
  editingIndex : Option Nat
deriving DecidableEq

/-- Result of running one handler: the state afterwards, the `ElMessage`
texts posted, and the remote calls issued. -/
structure StepResult where
  state : DialogState
  messages : List String
  calls : List RemoteCall
deriving DecidableEq

deriving instance DecidableEq for Except

/-- `fetchDomains`: on a 200 response replaces `domains.value` with the
mapped `{id, domain}` rows; otherwise posts an error message and leaves
the state alone.  Nothing else in the function touches `editingIndex` or
`newDomain`. -/
def fetchDomains (resp : ApiResponse (List DomainEntry)) (st : DialogState) :
    StepResult :=
  match resp with
  | .ok data => ⟨{ st with domains := data }, [], [.list]⟩
  | .badStatus _ => ⟨st, ["Failed to load domains"], [.list]⟩
  | .transportError e => ⟨st, ["Error fetching domains: " ++ e], [.list]⟩

/-- A character the JavaScript `trim()` removes: the ECMAScript
WhiteSpace characters (tab, vertical tab, form feed, space, no-break
space, zero-width no-break space, and the Unicode space separators)
together with the line terminators. -/
def isJsWhitespace (c : Char) : Bool :=
  c == '\t' || c == '\n' || c == '\u000B' || c == '\u000C' || c == '\r'
    || c == ' ' || c == '\u00A0' || c == '\uFEFF' || c == '\u1680'
    || ('\u2000' ≤ c && c ≤ '\u200A')
    || c == '\u2028' || c == '\u2029' || c == '\u202F' || c == '\u205F'
    || c == '\u3000'

/-- Strip leading and trailing JavaScript whitespace from a character
list. -/
def trimChars (cs : List Char) : List Char :=
  ((cs.dropWhile isJsWhitespace).reverse.dropWhile isJsWhitespace).reverse

/-- The JavaScript `String.prototype.trim`. -/
def jsTrim (s : String) : String :=
  ⟨trimChars s.toList⟩

/-- Character class `[a-zA-Z0-9-]` of the domain regex. -/
def isLabelChar (c : Char) : Bool :=
  c.isAlpha || c.isDigit || c == '-'

/-- A JavaScript line terminator, which `.` in a regex does not match. -/
def isLineTerminator (c : Char) : Bool :=
  c == '\n' || c == '\r' || c == '\u2028' || c == '\u2029'

/-- Split a character list at every `'.'` (the separators are dropped;
adjacent dots yield empty parts), mirroring how the anchored regex
`^([a-zA-Z0-9-]+\.)+[a-zA-Z]{2,}(\/.*)?$` forces the domain part to
decompose at its dots: neither character class contains `'.'`. -/
def splitOnDot : List Char → List (List Char)
  | [] => [[]]
  | c :: rest =>
    if c = '.' then [] :: splitOnDot rest
    else
      match splitOnDot rest with
      | [] => [[c]]
      | p :: ps => (c :: p) :: ps

/-- The `([a-zA-Z0-9-]+\.)+[a-zA-Z]{2,}` part of the regex: at least two
dot-separated parts, every part before the last nonempty over
`[a-zA-Z0-9-]`, the last part at least two characters over `[a-zA-Z]`. -/
def domainPartOk (dom : List Char) : Bool :=
  let parts := splitOnDot dom
  decide (2 ≤ parts.length)
    && parts.dropLast.all (fun l => !l.isEmpty && l.all isLabelChar)
    && (match parts.getLast? with
        | some fin => decide (2 ≤ fin.length) && fin.all Char.isAlpha
        | none => false)

/-- The `(\/.*)?$` part of the regex: either nothing, or a `'/'` followed
by characters that `.` can match (no line terminators), running to the end
of the string. -/
def pathPartOk (rest : List Char) : Bool :=
  match rest with
  | [] => true
  | _ :: tail => tail.all fun c => !isLineTerminator c

/-- Whole-string match of `^([a-zA-Z0-9-]+\.)+[a-zA-Z]{2,}(\/.*)?$`.
Since `'/'` is in neither character class of the domain part, the path
part (if any) begins at the first `'/'` of the input. -/
def matchesDomainPattern (cs : List Char) : Bool :=
  domainPartOk (cs.takeWhile fun c => c ≠ '/')
    && pathPartOk (cs.dropWhile fun c => c ≠ '/')

/-- `isValidDomain`: tests `domain.trim()` against the regex. -/
def isValidDomain (domain : String) : Bool :=
  matchesDomainPattern (jsTrim domain).toList

/-- `createDomain`: on a 200 response pushes the server-returned
`{id, domain}` row and reports success; otherwise posts the response's
`message` (or a default) and reports failure. -/
def createDomain (resp : ApiResponse DomainEntry) (st : DialogState) :
    Bool × DialogState × List String :=
  match resp with
  | .ok entry =>
      (true, { st with domains := st.domains ++ [entry] },
       ["Domain created successfully"])
  | .badStatus m => (false, st, [m.getD "Failed to create domain"])
  | .transportError e => (false, st, ["Error creating domain: " ++ e])

/-- `updateDomain`: reports whether the remote update succeeded, plus the
message it posted.  It never touches the registry itself. -/
def updateDomain (resp : ApiResponse Unit) : Bool × List String :=
  match resp with
  | .ok _ => (true, ["Domain updated successfully"])
  | .badStatus m => (false, [m.getD "Failed to update domain"])
  | .transportError e => (false, ["Error updating domain: " ++ e])

/-- `deleteDomain`: reports whether the remote delete succeeded, plus the
message it posted. -/
def deleteDomain (resp : ApiResponse Unit) : Bool × List String :=
  match resp with
  | .ok _ => (true, ["Domain deleted successfully"])
  | .badStatus m => (false, [m.getD "Failed to delete domain"])
  | .transportError e => (false, ["Error deleting domain: " ++ e])

/-- `handleAddOrUpdateDomain`: trims the draft; rejects an empty or
syntactically invalid draft with a message and no remote call; with
`editingIndex` set, reads that row's id (a `TypeError` if the index is out
of range), calls the remote update and on success writes the trimmed name
into the row and clears the edit state; with `editingIndex` unset, rejects
an exact duplicate with a message and no remote call, otherwise calls the
remote create and on success clears the draft. -/
def handleAddOrUpdateDomain (uresp : ApiResponse Unit)
    (cresp : ApiResponse DomainEntry) (st : DialogState) :
    Except Unit StepResult :=
  let domain := jsTrim st.newDomain
  if domain = "" then .ok ⟨st, ["Please enter a domain"], []⟩
  else if !isValidDomain domain then
    .ok ⟨st, ["Please enter a valid domain"], []⟩
  else
    match st.editingIndex with
    | some i =>
      match st.domains[i]? with
      | none => .error ()
      | some entry =>
        let r := updateDomain uresp
        if r.1 then
          .ok ⟨⟨"", st.domains.set i { entry with domain := domain }, none⟩,
               r.2, [.update entry.id domain]⟩
        else .ok ⟨st, r.2, [.update entry.id domain]⟩
    | none =>
      if st.domains.any (fun d => d.domain == domain) then
        .ok ⟨st, ["Domain already exists"], []⟩
      else
        let r := createDomain cresp st
        if r.1 then
          .ok ⟨{ r.2.1 with newDomain := "" }, r.2.2, [.create domain]⟩
        else .ok ⟨r.2.1, r.2.2, [.create domain]⟩

/-- `handleEditDomain`: points the cursor at the row and copies its name
into the draft (a `TypeError` if the index is out of range). -/
def handleEditDomain (index : Nat) (st : DialogState) :
    Except Unit DialogState :=
  match st.domains[index]? with
  | none => .error ()
  | some entry => .ok ⟨entry.domain, st.domains, some index⟩

/-- `handleDeleteDomain`: reads the row (a `TypeError` if the index is out
of range), asks for confirmation; on "cancel" does nothing; on "OK" calls
the remote delete, and only on success splices the row out and fixes the
cursor: cleared (with the draft) when it was on the deleted row,
decremented when it was past it. -/
def handleDeleteDomain (decision : Bool) (resp : ApiResponse Unit)
    (index : Nat) (st : DialogState) : Except Unit StepResult :=
  match st.domains[index]? with
  | none => .error ()
  | some entry =>
    if decision then
      let r := deleteDomain resp
      if r.1 then
        let domains' := st.domains.eraseIdx index
        match st.editingIndex with
        | some e =>
          if e = index then .ok ⟨⟨"", domains', none⟩, r.2, [.delete entry.id]⟩
          else if index < e then
            .ok ⟨⟨st.newDomain, domains', some (e - 1)⟩, r.2, [.delete entry.id]⟩
          else .ok ⟨⟨st.newDomain, domains', some e⟩, r.2, [.delete entry.id]⟩
        | none => .ok ⟨⟨st.newDomain, domains', none⟩, r.2, [.delete entry.id]⟩
      else .ok ⟨st, r.2, [.delete entry.id]⟩
    else .ok ⟨st, [], []⟩

/-- One scanned resource row `{ type, url, isValid }` from the sync
response.  `type` is `Option String` because the grouping treats a record
that carries no type specially. -/
structure ResourceRecord where
  type : Option String
  url : String
  isValid : Bool
deriving DecidableEq

/-- The grouping key `request.type || "UNKNOWN"`: an absent type is falsy,
and so is the empty string, so both fall back to `"UNKNOWN"`. -/
def recordKey (r : ResourceRecord) : String :=
  match r.type with
  | none => "UNKNOWN"
  | some t => if t = "" then "UNKNOWN" else t

/-- The payload of a sync response: `{ requests, invalidLinks }`. -/
structure SyncData where
  requests : List ResourceRecord
  invalidLinks : List String
deriving DecidableEq

/-- The page's reactive state: `url`, `domains`, `selectedDomain`,
`syncData`. -/
structure PageState where
  url : String
  domains : List String
  selectedDomain : Option String
  syncData : Option SyncData
deriving DecidableEq

/-- `handleSync`: records the selected domain and clears `syncData` to
`null` before the fetch; on success stores the response payload, on any
failure (transport, non-ok status, malformed body) lands in the `catch`
and posts an error, leaving `syncData` as the `null` it was just set
to. -/
def handleSync (resp : Option SyncData) (domain : String) (st : PageState) :
    PageState × List String :=
  let st1 := { st with selectedDomain := some domain, syncData := none }
  match resp with
  | some data => ({ st1 with syncData := some data }, ["Sync completed for " ++ domain])
  | none => (st1, ["Failed to sync data. Please try again later."])

/-- The JS object accumulated by the `reduce`, as an association list in
property-creation order. -/
abbrev Groups := List (String × List ResourceRecord)

/-- The own-property mutation of one `reduce` step, in the cases where no
`TypeError` occurs: push onto the key's existing own array, or create the
key's array (at the end of the object, in creation order) and push. -/
def upsertOwn (acc : Groups) (r : ResourceRecord) : Groups :=
  let t := recordKey r
  if acc.any (fun p => p.1 == t) then
    acc.map (fun p => if p.1 == t then (p.1, p.2 ++ [r]) else p)
  else acc ++ [(t, [r])]

/-- The pure own-property fold of the `reduce`; it agrees with
`classifyAssoc` exactly when no grouping key is an `Object.prototype`
property name. -/
def classifyOwn (rs : List ResourceRecord) : Groups :=
  rs.foldl upsertOwn []

/-- A property name a fresh `{}` inherits from `Object.prototype`.  For
such a key the lookup `acc[type]` finds the inherited method (or the
prototype itself, for `__proto__`), which is truthy, so the `reduce`
step skips creating the array and then calls `.push` on a non-array,
throwing a `TypeError`. -/
def isProtoKey (s : String) : Bool :=
  s == "constructor" || s == "hasOwnProperty" || s == "isPrototypeOf"
    || s == "propertyIsEnumerable" || s == "toLocaleString" || s == "toString"
    || s == "valueOf" || s == "__defineGetter__" || s == "__defineSetter__"
    || s == "__lookupGetter__" || s == "__lookupSetter__" || s == "__proto__"

/-- One step of the `reduce`, with the JS semantics of `if (!acc[type])`:
an existing own key (always an array, hence truthy) is pushed onto;
otherwise the lookup falls through to the prototype chain, so an
`Object.prototype` property name finds a truthy inherited value, no
array is created, and `acc[type].push(request)` throws `TypeError`; any
other absent key reads as `undefined` (falsy) and gets a fresh array. -/
def upsert (acc : Groups) (r : ResourceRecord) : Except Unit Groups :=
  let t := recordKey r
  if acc.any (fun p => p.1 == t) then
    .ok (acc.map fun p => if p.1 == t then (p.1, p.2 ++ [r]) else p)
  else if isProtoKey t then .error ()
  else .ok (acc ++ [(t, [r])])

/-- The `reduce` over the record list, propagating a thrown `TypeError`. -/
def classifyFold : Groups → List ResourceRecord → Except Unit Groups
  | acc, [] => .ok acc
  | acc, r :: rest =>
    match upsert acc r with
    | .ok acc2 => classifyFold acc2 rest
    | .error e => .error e

/-- `groupedRequests`' `reduce` of the whole record list: the grouped
object, or the `TypeError` the source throws when a grouping key is an
`Object.prototype` property name. -/
def classifyAssoc (rs : List ResourceRecord) : Except Unit Groups :=
  classifyFold [] rs

/-- `groupedRequests`: `{}` when `syncData` is `null` (returned before
the `reduce` runs, so that case never throws), otherwise the record list
grouped by key — or the `TypeError` the `reduce` throws.  (`requests` is
an array in the model, and even an empty array is truthy, so only the
`null` check matters.) -/
def groupedRequests (st : PageState) : Except Unit Groups :=
  match st.syncData with
  | none => .ok []
  | some d => classifyAssoc d.requests

/-- Property access `groupedRequests.value[type]`: the group stored under
a key, or nothing (`[]` for the table) when the key is absent. -/
def groupOf (m : Groups) (t : String) : List ResourceRecord :=
  ((m.find? fun p => p.1 == t).map Prod.snd).getD []

/-- Read a property key consisting only of decimal digits as a number
(the value side of the ECMAScript array-index test). -/
def keyToNat? (cs : List Char) : Option Nat :=
  if !cs.isEmpty && cs.all Char.isDigit then
    some (cs.foldl (fun n c => n * 10 + (c.toNat - 48)) 0)
  else none

/-- Whether a property key is a canonical array index in the ECMAScript
sense: the decimal representation of some `n < 2^32 - 1` with no leading
zeros. -/
def isArrayIndexKey (s : String) : Bool :=
  match keyToNat? s.toList with
  | some n => toString n == s && decide (n < 4294967295)
  | none => false

/-- Insertion step of the numeric sort that ECMAScript applies to
array-index property keys. -/
def insertByNat (x : String) : List String → List String
  | [] => [x]
  | y :: ys =>
    if (keyToNat? x.toList).getD 0 ≤ (keyToNat? y.toList).getD 0 then
      x :: y :: ys
    else y :: insertByNat x ys

/-- Insertion sort of array-index keys by numeric value. -/
def sortByNat : List String → List String
  | [] => []
  | x :: xs => insertByNat x (sortByNat xs)

/-- `Object.keys` on the accumulated object, in ECMAScript
own-property-key order: array-index keys first in ascending numeric
order, then the remaining string keys in creation order. -/
def objectKeys (m : Groups) : List String :=
  let ks := m.map Prod.fst
  sortByNat (ks.filter fun k => isArrayIndexKey k)
    ++ ks.filter fun k => !isArrayIndexKey k

/-- `requestTypes`: `Object.keys(groupedRequests.value)`; reading a
computed that threw rethrows the `TypeError`. -/
def requestTypes (st : PageState) : Except Unit (List String) :=
  match groupedRequests st with
  | .ok m => .ok (objectKeys m)
  | .error e => .error e

/-- The heading the template renders above each group's table:
`{{ type }} Requests`. -/
def typeTitle (t : String) : String :=
  t ++ " Requests"

/-- First-occurrence order of the grouping keys in the record list (the
order the spec asks `types` to have). -/
def firstKeys (rs : List ResourceRecord) : List String :=
  rs.foldl
    (fun ks r => if ks.any (fun k => k == recordKey r) then ks else ks ++ [recordKey r])
    []

/-- A view's groups flattened back into one record sequence, in the
order of the view's `types` list. -/
def flattenGroups (m : Groups) : List ResourceRecord :=
  ((objectKeys m).map fun t => groupOf m t).flatten

/-- The spec's reading of the domain-syntax rule, stated structurally on
the trimmed character list: one or more labels of alphanumerics and
hyphens, each followed by a dot, then a final label of at least two
alphabetic characters, optionally followed by a path suffix (a slash and
the rest of the line). -/
def DomainShape (cs : List Char) : Prop :=
  ∃ (labels : List (List Char)) (fin path : List Char),
    labels ≠ [] ∧
    (∀ l ∈ labels, l ≠ [] ∧ ∀ c ∈ l, isLabelChar c = true) ∧
    2 ≤ fin.length ∧ (∀ c ∈ fin, c.isAlpha = true) ∧
    (path = [] ∨ ∃ r, path = '/' :: r ∧ ∀ c ∈ r, isLineTerminator c = false) ∧
    cs = (labels.map (fun l => l ++ ['.'])).flatten ++ fin ++ path

/-- Rejoin the parts produced by `splitOnDot`, reinserting the dots. -/
def joinDots : List (List Char) → List Char
  | [] => []
  | [p] => p
  | p :: q :: ps => p ++ '.' :: joinDots (q :: ps)

theorem getElem?_eraseIdx_lt {α : Type} (l : List α) :
    ∀ (i e : Nat), e < i → (l.eraseIdx i)[e]? = l[e]? := by
  induction l with
  | nil => intro i e _; simp [List.eraseIdx_nil]
  | cons x xs ih =>
    intro i e h
    cases i with
    | zero => omega
    | succ i =>
      cases e with
      | zero => simp [List.eraseIdx_cons_succ]
      | succ e =>
        simp only [List.eraseIdx_cons_succ, List.getElem?_cons_succ]
        exact ih i e (by omega)

theorem getElem?_eraseIdx_ge {α : Type} (l : List α) :
    ∀ (i e : Nat), i < e → (l.eraseIdx i)[e - 1]? = l[e]? := by
  induction l with
  | nil => intro i e _; simp [List.eraseIdx_nil]
  | cons x xs ih =>
    intro i e h
    cases e with
    | zero => omega
    | succ e =>
      cases i with
      | zero => simp [List.eraseIdx_cons_zero]
      | succ i =>
        cases e with
        | zero => omega
        | succ e =>
          simp only [List.eraseIdx_cons_succ, Nat.add_sub_cancel,
            List.getElem?_cons_succ]
          have := ih i (e + 1) (by omega)
          simpa using this

/-- C1: `remove(i)` with confirmation and a successful remote delete
removes the entry at index `i`; a cursor at `i` is cleared together with
the pending draft, a cursor past `i` is decremented and still names the
same logical entry, a cursor before `i` is untouched; and on a failed
remote delete the whole state is exactly as before and the error is
surfaced. -/
theorem C1_remove_spec (st : DialogState) (i : Nat) (resp : ApiResponse Unit)
    (h : i < st.domains.length) :
    ∃ res, handleDeleteDomain true resp i st = .ok res ∧
      (resp = .ok () →
        res.state.domains = st.domains.eraseIdx i ∧
        (st.editingIndex = some i →
          res.state.editingIndex = none ∧ res.state.newDomain = "") ∧
        (∀ e, st.editingIndex = some e → i < e →
          res.state.editingIndex = some (e - 1) ∧
          res.state.domains[e - 1]? = st.domains[e]?) ∧
        (∀ e, st.editingIndex = some e → e < i →
          res.state.editingIndex = some e ∧
          res.state.domains[e]? = st.domains[e]?) ∧
        (st.editingIndex = none → res.state.editingIndex = none)) ∧
      (resp ≠ .ok () → res.state = st ∧ res.messages ≠ []) := by
  have hd : st.domains[i]? = some st.domains[i] := List.getElem?_eq_getElem h
  cases resp with
  | ok u =>
    cases u
    cases hei : st.editingIndex with
    | none =>
      have hres : handleDeleteDomain true (.ok ()) i st =
          .ok ⟨⟨st.newDomain, st.domains.eraseIdx i, none⟩,
            ["Domain deleted successfully"], [.delete st.domains[i].id]⟩ := by
        simp [handleDeleteDomain, hd, deleteDomain, hei]
      refine ⟨_, hres, ?_, ?_⟩
      · intro _
        refine ⟨rfl, ?_, ?_, ?_, fun _ => rfl⟩
        · intro hc; simp at hc
        · intro e hc; simp at hc
        · intro e hc; simp at hc
      · intro hne; exact absurd rfl hne
    | some e0 =>
      by_cases he : e0 = i
      · subst he
        have hres : handleDeleteDomain true (.ok ()) e0 st =
            .ok ⟨⟨"", st.domains.eraseIdx e0, none⟩,
              ["Domain deleted successfully"], [.delete st.domains[e0].id]⟩ := by
          simp [handleDeleteDomain, hd, deleteDomain, hei]
        refine ⟨_, hres, ?_, ?_⟩
        · intro _
          refine ⟨rfl, fun _ => ⟨rfl, rfl⟩, ?_, ?_, ?_⟩
          · intro e hc hlt
            obtain rfl := Option.some.inj hc; omega
          · intro e hc hlt
            obtain rfl := Option.some.inj hc; omega
          · intro hc; simp at hc
        · intro hne; exact absurd rfl hne
      · by_cases hlt : i < e0
        · have hres : handleDeleteDomain true (.ok ()) i st =
              .ok ⟨⟨st.newDomain, st.domains.eraseIdx i, some (e0 - 1)⟩,
                ["Domain deleted successfully"], [.delete st.domains[i].id]⟩ := by
            simp [handleDeleteDomain, hd, deleteDomain, hei, he, hlt]
          refine ⟨_, hres, ?_, ?_⟩
          · intro _
            refine ⟨rfl, ?_, ?_, ?_, ?_⟩
            · intro hc
              obtain rfl := Option.some.inj hc; exact absurd rfl he
            · intro e hc hlt2
              obtain rfl := Option.some.inj hc
              exact ⟨rfl, getElem?_eraseIdx_ge st.domains i e0 hlt2⟩
            · intro e hc hlt2
              obtain rfl := Option.some.inj hc; omega
            · intro hc; simp at hc
          · intro hne; exact absurd rfl hne
        · have hres : handleDeleteDomain true (.ok ()) i st =
              .ok ⟨⟨st.newDomain, st.domains.eraseIdx i, some e0⟩,
                ["Domain deleted successfully"], [.delete st.domains[i].id]⟩ := by
            simp [handleDeleteDomain, hd, deleteDomain, hei, he, hlt]
          refine ⟨_, hres, ?_, ?_⟩
          · intro _
            refine ⟨rfl, ?_, ?_, ?_, ?_⟩
            · intro hc
              obtain rfl := Option.some.inj hc; exact absurd rfl he
            · intro e hc hlt2
              obtain rfl := Option.some.inj hc; omega
            · intro e hc hlt2
              obtain rfl := Option.some.inj hc
              exact ⟨rfl, getElem?_eraseIdx_lt st.domains i e0 hlt2⟩
            · intro hc; simp at hc
          · intro hne; exact absurd rfl hne
  | badStatus m =>
    have hres : handleDeleteDomain true (.badStatus m) i st =
        .ok ⟨st, [m.getD "Failed to delete domain"], [.delete st.domains[i].id]⟩ := by
      simp [handleDeleteDomain, hd, deleteDomain]
    refine ⟨_, hres, ?_, ?_⟩
    · intro hc; cases hc
    · intro _; exact ⟨rfl, by simp⟩
  | transportError e =>
    have hres : handleDeleteDomain true (.transportError e) i st =
        .ok ⟨st, ["Error deleting domain: " ++ e], [.delete st.domains[i].id]⟩ := by
      simp [handleDeleteDomain, hd, deleteDomain]
    refine ⟨_, hres, ?_, ?_⟩
    · intro hc; cases hc
    · intro _; exact ⟨rfl, by simp⟩

theorem C1_remove_spec_witness :
    (0 : Nat) < 3 ∧
      ∃ res,
        handleDeleteDomain true (.ok ()) 0
            ⟨"z.com", [⟨1, "x"⟩, ⟨2, "y"⟩, ⟨3, "z"⟩], some 2⟩ = .ok res ∧
          res.state.domains = [⟨2, "y"⟩, ⟨3, "z"⟩] ∧
          res.state.editingIndex = some 1 := by
  refine ⟨by decide, ?_⟩
  obtain ⟨res, hres, hok, -⟩ :=
    C1_remove_spec ⟨"z.com", [⟨1, "x"⟩, ⟨2, "y"⟩, ⟨3, "z"⟩], some 2⟩ 0 (.ok ())
      (by decide)
  obtain ⟨hdoms, -, hgt, -, -⟩ := hok rfl
  exact ⟨res, hres, by simpa using hdoms, (hgt 2 rfl (by decide)).1⟩


/-- C2 (counterexample): a successful `fetchDomains` does not clear the
edit cursor — with the cursor set, a 200 list response leaves
`editingIndex` set, contradicting the claim that a successful `load()`
clears `editCursor`. -/
theorem C2_load_counterexample :
    (fetchDomains (.ok [⟨2, "b.com"⟩])
        ⟨"draft", [⟨1, "a.com"⟩], some 0⟩).state.editingIndex ≠ none := by
  decide

/-- C2 (amended): a successful `load()` replaces `domains` wholesale with
the fetched list but leaves `editCursor` (and the draft) untouched; on a
non-success status or transport failure the previous `domains` value is
retained in full and an error message is surfaced. -/
theorem C2_load_amended (st : DialogState) (data : List DomainEntry)
    (m : Option String) (e : String) :
    ((fetchDomains (.ok data) st).state.domains = data ∧
      (fetchDomains (.ok data) st).state.editingIndex = st.editingIndex ∧
      (fetchDomains (.ok data) st).state.newDomain = st.newDomain) ∧
    ((fetchDomains (.badStatus m) st).state = st ∧
      (fetchDomains (.badStatus m) st).messages = ["Failed to load domains"]) ∧
    ((fetchDomains (.transportError e) st).state = st ∧
      (fetchDomains (.transportError e) st).messages =
        ["Error fetching domains: " ++ e]) :=
  ⟨⟨rfl, rfl, rfl⟩, ⟨rfl, rfl⟩, ⟨rfl, rfl⟩⟩

/-- C8: the remote delete is never invoked without a "yes": a declined
confirmation returns the state untouched, with no message and no remote
call, and any execution of `remove` that issued a remote call had
`decision = true`. -/
theorem C8_confirm_gate (st : DialogState) (i : Nat) (resp : ApiResponse Unit)
    (h : i < st.domains.length) :
    handleDeleteDomain false resp i st = .ok ⟨st, [], []⟩ ∧
    (∀ (d : Bool) (res : StepResult),
      handleDeleteDomain d resp i st = .ok res → res.calls ≠ [] → d = true) := by
  have hd : st.domains[i]? = some st.domains[i] := List.getElem?_eq_getElem h
  have hno : handleDeleteDomain false resp i st = .ok ⟨st, [], []⟩ := by
    simp [handleDeleteDomain, hd]
  refine ⟨hno, ?_⟩
  intro d res hres hcalls
  cases d with
  | true => rfl
  | false =>
    rw [hno] at hres
    obtain rfl := (Except.ok.inj hres).symm
    exact absurd rfl hcalls

theorem C8_confirm_gate_witness :
    handleDeleteDomain false (.ok ()) 0 ⟨"", [⟨1, "a.com"⟩], none⟩ =
      .ok ⟨⟨"", [⟨1, "a.com"⟩], none⟩, [], []⟩ :=
  (C8_confirm_gate ⟨"", [⟨1, "a.com"⟩], none⟩ 0 (.ok ()) (by decide)).1

/-- C10 (counterexample): with entries literally named "a" and "b" and the
cursor on "b", `submit("a")` does not succeed — the draft "a" fails the
syntax validation (no dot-separated final label of two letters), so the
handler stops with the validation message, makes no remote call, and the
registry keeps its two distinct names. -/
theorem C10_update_counterexample :
    handleAddOrUpdateDomain (.ok ()) (.badStatus none)
        ⟨"a", [⟨1, "a"⟩, ⟨2, "b"⟩], some 1⟩ =
      .ok ⟨⟨"a", [⟨1, "a"⟩, ⟨2, "b"⟩], some 1⟩,
        ["Please enter a valid domain"], []⟩ ∧
    (["Please enter a valid domain"] : List String) ≠ ["Domain already exists"] := by
  decide

/-- C10 (amended): the update path performs no duplicate check — for a
registry with entries named "a.com" and "b.com" and the cursor on
"b.com", `submit("a.com")` with a successful remote update succeeds and
yields a registry with two entries both named "a.com"; uniqueness of
names is not an invariant of the registry. -/
theorem C10_update_amended :
    handleAddOrUpdateDomain (.ok ()) (.badStatus none)
        ⟨"a.com", [⟨1, "a.com"⟩, ⟨2, "b.com"⟩], some 1⟩ =
      .ok ⟨⟨"", [⟨1, "a.com"⟩, ⟨2, "a.com"⟩], none⟩,
        ["Domain updated successfully"], [.update 2 "a.com"]⟩ ∧
    (⟨"", [⟨1, "a.com"⟩, ⟨2, "a.com"⟩], none⟩ : DialogState).domains.map
        DomainEntry.domain = ["a.com", "a.com"] := by
  decide

/-- C7 (counterexample): `submit("a")` on a registry holding "a" and "b"
(create path) does not fail with the duplicate error — validation runs
first, and "a" is not a syntactically valid domain, so the handler stops
with the validation message instead. -/
theorem C7_create_counterexample :
    handleAddOrUpdateDomain (.badStatus none) (.badStatus none)
        ⟨"a", [⟨1, "a"⟩, ⟨2, "b"⟩], none⟩ =
      .ok ⟨⟨"a", [⟨1, "a"⟩, ⟨2, "b"⟩], none⟩,
        ["Please enter a valid domain"], []⟩ ∧
    (["Please enter a valid domain"] : List String) ≠ ["Domain already exists"] := by
  decide

/-- C7 (amended): on the create path, for a nonempty, syntactically valid
draft: an exact (case-sensitive, unnormalized) duplicate fails with the
duplicate error before any remote call and leaves the registry unchanged;
with no duplicate, a successful remote create appends the server-returned
`(id, name)` pair, and a failed remote create leaves the state exactly as
before with an error surfaced. -/
theorem C7_create_amended (st : DialogState) (uresp : ApiResponse Unit)
    (cresp : ApiResponse DomainEntry)
    (hedit : st.editingIndex = none)
    (hne : jsTrim st.newDomain ≠ "")
    (hvalid : isValidDomain (jsTrim st.newDomain) = true) :
    (st.domains.any (fun d => d.domain == jsTrim st.newDomain) = true →
      handleAddOrUpdateDomain uresp cresp st =
        .ok ⟨st, ["Domain already exists"], []⟩) ∧
    (st.domains.any (fun d => d.domain == jsTrim st.newDomain) = false →
      (∀ entry, cresp = .ok entry →
        handleAddOrUpdateDomain uresp cresp st =
          .ok ⟨⟨"", st.domains ++ [entry], st.editingIndex⟩,
            ["Domain created successfully"], [.create (jsTrim st.newDomain)]⟩) ∧
      ((∀ entry, cresp ≠ .ok entry) →
        ∃ res, handleAddOrUpdateDomain uresp cresp st = .ok res ∧
          res.state = st ∧ res.messages ≠ [] ∧
          res.calls = [.create (jsTrim st.newDomain)])) := by
  constructor
  · intro hdup
    simp [handleAddOrUpdateDomain, hne, hvalid, hedit, hdup]
  · intro hnodup
    constructor
    · intro entry hce
      subst hce
      simp [handleAddOrUpdateDomain, hne, hvalid, hedit, hnodup, createDomain]
    · intro hfail
      cases cresp with
      | ok entry => exact absurd rfl (hfail entry)
      | badStatus m2 =>
        refine ⟨⟨st, [m2.getD "Failed to create domain"],
          [.create (jsTrim st.newDomain)]⟩, ?_, rfl, by simp, rfl⟩
        simp [handleAddOrUpdateDomain, hne, hvalid, hedit, hnodup, createDomain]
      | transportError e2 =>
        refine ⟨⟨st, ["Error creating domain: " ++ e2],
          [.create (jsTrim st.newDomain)]⟩, ?_, rfl, by simp, rfl⟩
        simp [handleAddOrUpdateDomain, hne, hvalid, hedit, hnodup, createDomain]

theorem C7_create_amended_witness :
    handleAddOrUpdateDomain (.ok ()) (.badStatus none)
        ⟨"a.com", [⟨1, "a.com"⟩, ⟨2, "b.com"⟩], none⟩ =
      .ok ⟨⟨"a.com", [⟨1, "a.com"⟩, ⟨2, "b.com"⟩], none⟩,
        ["Domain already exists"], []⟩ :=
  (C7_create_amended ⟨"a.com", [⟨1, "a.com"⟩, ⟨2, "b.com"⟩], none⟩ (.ok ())
      (.badStatus none) rfl (by decide) (by decide)).1 (by decide)

/-- C5 (counterexample): the heading rendered for an unrecognized type
"WEIRD" is "WEIRD Requests", not the "WEIRD Data" the claim states. -/
theorem C5_title_counterexample :
    typeTitle "WEIRD" = "WEIRD Requests" ∧ typeTitle "WEIRD" ≠ "WEIRD Data" := by
  decide

/-- C5 (amended): per-type display is total and uniform — there is no
per-kind configuration table and no icon; every group's heading title is
derived from the type value itself as `"<type> Requests"`, so an
unrecognized type "WEIRD" is grouped under its own key and headed
"WEIRD Requests". -/
theorem C5_title_amended (u : String) (v : Bool) (links : List String) :
    requestTypes ⟨"", [], none, some ⟨[⟨some "WEIRD", u, v⟩], links⟩⟩ =
      .ok ["WEIRD"] ∧
    (requestTypes ⟨"", [], none, some ⟨[⟨some "WEIRD", u, v⟩], links⟩⟩).map
        (fun ks => ks.map typeTitle) = .ok ["WEIRD Requests"] ∧
    groupedRequests ⟨"", [], none, some ⟨[⟨some "WEIRD", u, v⟩], links⟩⟩ =
      .ok [("WEIRD", [⟨some "WEIRD", u, v⟩])] ∧
    groupOf [("WEIRD", [⟨some "WEIRD", u, v⟩])] "WEIRD" =
      [⟨some "WEIRD", u, v⟩] :=
  ⟨rfl, rfl, rfl, rfl⟩

/-- C4 (counterexample): a failed per-domain sync does not retain the
previously held `syncData` — `handleSync` clears it to `null` before the
fetch, so after the failure it is `null`, not the prior value. -/
theorem C4_failures_counterexample :
    (handleSync none "d.com" ⟨"", [], none, some ⟨[], ["x"]⟩⟩).1.syncData ≠
      (⟨"", [], none, some ⟨[], ["x"]⟩⟩ : PageState).syncData := by
  decide

/-- C4 (amended): a remote failure of `load`, of `submit` on either path,
or of `remove` leaves the dialog state exactly as before and surfaces a
message; a failed per-domain sync leaves `domains` untouched and surfaces
a message, but `syncData` was cleared to `null` at the start of the
operation, so after the failure it is `null` rather than the previously
held value. -/
theorem C4_failures_amended (st : DialogState) (pst : PageState)
    (m : Option String) (e : String) (dom : String)
    (uresp : ApiResponse Unit) (cresp : ApiResponse DomainEntry)
    (dresp : ApiResponse Unit) :
    ((fetchDomains (.badStatus m) st).state = st ∧
      (fetchDomains (.badStatus m) st).messages ≠ []) ∧
    ((fetchDomains (.transportError e) st).state = st ∧
      (fetchDomains (.transportError e) st).messages ≠ []) ∧
    (∀ i, st.editingIndex = some i → i < st.domains.length →
      jsTrim st.newDomain ≠ "" → isValidDomain (jsTrim st.newDomain) = true →
      uresp ≠ .ok () →
      ∃ res, handleAddOrUpdateDomain uresp cresp st = .ok res ∧
        res.state = st ∧ res.messages ≠ []) ∧
    (st.editingIndex = none →
      jsTrim st.newDomain ≠ "" → isValidDomain (jsTrim st.newDomain) = true →
      st.domains.any (fun d => d.domain == jsTrim st.newDomain) = false →
      (∀ en, cresp ≠ .ok en) →
      ∃ res, handleAddOrUpdateDomain uresp cresp st = .ok res ∧
        res.state = st ∧ res.messages ≠ []) ∧
    (∀ i, i < st.domains.length → dresp ≠ .ok () →
      ∃ res, handleDeleteDomain true dresp i st = .ok res ∧
        res.state = st ∧ res.messages ≠ []) ∧
    ((handleSync none dom pst).1.domains = pst.domains ∧
      (handleSync none dom pst).1.syncData = none ∧
      (handleSync none dom pst).2 ≠ []) := by
  refine ⟨⟨rfl, by simp [fetchDomains]⟩, ⟨rfl, by simp [fetchDomains]⟩, ?_, ?_,
    ?_, ⟨rfl, rfl, by simp [handleSync]⟩⟩
  · intro i hei hlen hne hvalid hufail
    have hd : st.domains[i]? = some st.domains[i] := List.getElem?_eq_getElem hlen
    cases uresp with
    | ok u => cases u; exact absurd rfl hufail
    | badStatus m2 =>
      refine ⟨⟨st, [m2.getD "Failed to update domain"],
        [.update st.domains[i].id (jsTrim st.newDomain)]⟩, ?_, rfl, by simp⟩
      simp [handleAddOrUpdateDomain, hne, hvalid, hei, hd, updateDomain]
    | transportError e2 =>
      refine ⟨⟨st, ["Error updating domain: " ++ e2],
        [.update st.domains[i].id (jsTrim st.newDomain)]⟩, ?_, rfl, by simp⟩
      simp [handleAddOrUpdateDomain, hne, hvalid, hei, hd, updateDomain]
  · intro hei hne hvalid hnodup hcfail
    cases cresp with
    | ok en => exact absurd rfl (hcfail en)
    | badStatus m2 =>
      refine ⟨⟨st, [m2.getD "Failed to create domain"],
        [.create (jsTrim st.newDomain)]⟩, ?_, rfl, by simp⟩
      simp [handleAddOrUpdateDomain, hne, hvalid, hei, hnodup, createDomain]
    | transportError e2 =>
      refine ⟨⟨st, ["Error creating domain: " ++ e2],
        [.create (jsTrim st.newDomain)]⟩, ?_, rfl, by simp⟩
      simp [handleAddOrUpdateDomain, hne, hvalid, hei, hnodup, createDomain]
  · intro i hlen hdfail
    have hd : st.domains[i]? = some st.domains[i] := List.getElem?_eq_getElem hlen
    cases dresp with
    | ok u => cases u; exact absurd rfl hdfail
    | badStatus m2 =>
      refine ⟨⟨st, [m2.getD "Failed to delete domain"],
        [.delete st.domains[i].id]⟩, ?_, rfl, by simp⟩
      simp [handleDeleteDomain, hd, deleteDomain]
    | transportError e2 =>
      refine ⟨⟨st, ["Error deleting domain: " ++ e2],
        [.delete st.domains[i].id]⟩, ?_, rfl, by simp⟩
      simp [handleDeleteDomain, hd, deleteDomain]

theorem C4_failures_amended_witness :
    (∃ res, handleAddOrUpdateDomain (.badStatus none) (.badStatus none)
        ⟨"b.com", [⟨1, "a.com"⟩], some 0⟩ = .ok res ∧
      res.state = ⟨"b.com", [⟨1, "a.com"⟩], some 0⟩ ∧ res.messages ≠ []) ∧
    (handleSync none "d.com" ⟨"", [], none, some ⟨[], ["x"]⟩⟩).1.syncData = none := by
  have h := C4_failures_amended ⟨"b.com", [⟨1, "a.com"⟩], some 0⟩
    ⟨"", [], none, some ⟨[], ["x"]⟩⟩ none "e" "d.com" (.badStatus none)
    (.badStatus none) (.badStatus none)
  exact ⟨h.2.2.1 0 rfl (by decide) (by decide) (by decide) (by decide),
    h.2.2.2.2.2.2.1⟩


theorem splitOnDot_ne_nil (cs : List Char) : splitOnDot cs ≠ [] := by
  induction cs with
  | nil => simp [splitOnDot]
  | cons c rest ih =>
    by_cases h : c = '.'
    · simp [splitOnDot, h]
    · simp only [splitOnDot, if_neg h]
      cases hs : splitOnDot rest with
      | nil => simp
      | cons p ps => simp

theorem joinDots_splitOnDot (cs : List Char) : joinDots (splitOnDot cs) = cs := by
  induction cs with
  | nil => simp [splitOnDot, joinDots]
  | cons c rest ih =>
    by_cases h : c = '.'
    · subst h
      simp only [splitOnDot, if_pos rfl]
      cases hs : splitOnDot rest with
      | nil => exact absurd hs (splitOnDot_ne_nil rest)
      | cons p ps =>
        rw [hs] at ih
        simpa [joinDots] using ih
    · simp only [splitOnDot, if_neg h]
      cases hs : splitOnDot rest with
      | nil => exact absurd hs (splitOnDot_ne_nil rest)
      | cons p ps =>
        rw [hs] at ih
        cases ps with
        | nil => simpa [joinDots] using ih
        | cons q qs =>
          simp only [joinDots, List.cons_append] at ih ⊢
          rw [ih]

theorem splitOnDot_no_dot (cs : List Char) (h : '.' ∉ cs) :
    splitOnDot cs = [cs] := by
  induction cs with
  | nil => simp [splitOnDot]
  | cons c rest ih =>
    have hc : ¬ c = '.' := fun he => h (by rw [he]; exact List.mem_cons_self _ _)
    have hr : '.' ∉ rest := fun hm => h (List.mem_cons_of_mem _ hm)
    simp only [splitOnDot, if_neg hc, ih hr]

theorem splitOnDot_append_dot (l rest : List Char) (h : '.' ∉ l) :
    splitOnDot (l ++ '.' :: rest) = l :: splitOnDot rest := by
  induction l with
  | nil => simp [splitOnDot]
  | cons c cl ih =>
    have hc : ¬ c = '.' := fun he => h (by rw [he]; exact List.mem_cons_self _ _)
    have hr : '.' ∉ cl := fun hm => h (List.mem_cons_of_mem _ hm)
    simp only [List.cons_append, splitOnDot, if_neg hc]
    rw [show splitOnDot (cl.append ('.' :: rest)) = cl :: splitOnDot rest from ih hr]

theorem joinDots_concat (labels : List (List Char)) (fin : List Char) :
    joinDots (labels ++ [fin]) = (labels.map fun l => l ++ ['.']).flatten ++ fin := by
  induction labels with
  | nil => simp [joinDots]
  | cons l ls ih =>
    cases ls with
    | nil => simp [joinDots]
    | cons l2 ls2 =>
      show l ++ '.' :: joinDots ((l2 :: ls2) ++ [fin]) =
        (List.map (fun l => l ++ ['.']) (l :: l2 :: ls2)).flatten ++ fin
      rw [ih]
      simp

theorem takeWhile_append_of_all (p : Char → Bool) (xs ys : List Char)
    (h : ∀ x ∈ xs, p x = true) :
    (xs ++ ys).takeWhile p = xs ++ ys.takeWhile p := by
  induction xs with
  | nil => simp
  | cons x xl ih =>
    simp only [List.cons_append, List.takeWhile_cons,
      h x (List.mem_cons_self _ _), if_true,
      ih fun a ha => h a (List.mem_cons_of_mem _ ha)]

theorem dropWhile_append_of_all (p : Char → Bool) (xs ys : List Char)
    (h : ∀ x ∈ xs, p x = true) :
    (xs ++ ys).dropWhile p = ys.dropWhile p := by
  induction xs with
  | nil => simp
  | cons x xl ih =>
    simp only [List.cons_append, List.dropWhile_cons,
      h x (List.mem_cons_self _ _), if_true]
    exact ih fun a ha => h a (List.mem_cons_of_mem _ ha)

theorem dropWhile_head_not (p : Char → Bool) (l : List Char) :
    ∀ c cs, l.dropWhile p = c :: cs → p c = false := by
  induction l with
  | nil => intro c cs h; cases h
  | cons x xl ih =>
    intro c cs h
    rw [List.dropWhile_cons] at h
    by_cases hx : p x = true
    · rw [if_pos hx] at h
      exact ih c cs h
    · have hx2 : p x = false := by revert hx; cases p x <;> simp
      rw [hx2] at h
      simp only [Bool.false_eq_true, if_false, List.cons.injEq] at h
      rw [← h.1]
      exact hx2

theorem splitOnDot_blob (labels : List (List Char)) (fin : List Char)
    (hlab : ∀ l ∈ labels, ∀ c ∈ l, isLabelChar c = true)
    (hfin : '.' ∉ fin) :
    splitOnDot ((labels.map fun l => l ++ ['.']).flatten ++ fin) =
      labels ++ [fin] := by
  induction labels with
  | nil => simpa using splitOnDot_no_dot fin hfin
  | cons l ls ih =>
    have hl : '.' ∉ l := fun hm =>
      absurd (hlab l (List.mem_cons_self _ _) '.' hm) (by decide)
    simp only [List.map_cons, List.flatten_cons, List.append_assoc,
      List.singleton_append, List.cons_append, List.nil_append]
    rw [splitOnDot_append_dot _ _ hl,
      ih fun l2 h2 => hlab l2 (List.mem_cons_of_mem _ h2)]

theorem matchesDomainPattern_iff (cs : List Char) :
    matchesDomainPattern cs = true ↔ DomainShape cs := by
  constructor
  · intro h
    unfold matchesDomainPattern at h
    rw [Bool.and_eq_true] at h
    obtain ⟨hdom, hpath⟩ := h
    unfold domainPartOk at hdom
    simp only [Bool.and_eq_true] at hdom
    obtain ⟨⟨hlen, hlabs⟩, hfin⟩ := hdom
    have hlen2 : 2 ≤ (splitOnDot (cs.takeWhile fun c => c ≠ '/')).length :=
      of_decide_eq_true hlen
    have hne : splitOnDot (cs.takeWhile fun c => c ≠ '/') ≠ [] :=
      splitOnDot_ne_nil _
    rw [List.getLast?_eq_getLast _ hne, Bool.and_eq_true] at hfin
    obtain ⟨hfl, hfa⟩ := hfin
    refine ⟨(splitOnDot (cs.takeWhile fun c => c ≠ '/')).dropLast,
      (splitOnDot (cs.takeWhile fun c => c ≠ '/')).getLast hne,
      cs.dropWhile fun c => c ≠ '/', ?_, ?_, ?_, ?_, ?_, ?_⟩
    · intro h0
      have hlen3 : (splitOnDot (cs.takeWhile fun c => c ≠ '/')).dropLast.length = 0 := by
        rw [h0]; rfl
      rw [List.length_dropLast] at hlen3
      omega
    · intro l hl
      have h2 := List.all_eq_true.mp hlabs l hl
      rw [Bool.and_eq_true] at h2
      refine ⟨by simpa using h2.1, fun c hc => List.all_eq_true.mp h2.2 c hc⟩
    · exact of_decide_eq_true hfl
    · exact fun c hc => List.all_eq_true.mp hfa c hc
    · cases hdw : cs.dropWhile (fun c => c ≠ '/') with
      | nil => exact Or.inl rfl
      | cons c tail =>
        right
        have hc := dropWhile_head_not _ cs c tail hdw
        have hc2 : c = '/' := by simpa using hc
        refine ⟨tail, by rw [hc2], ?_⟩
        rw [hdw] at hpath
        unfold pathPartOk at hpath
        intro c2 hc2m
        have h3 := List.all_eq_true.mp hpath c2 hc2m
        simpa using h3
    · have h1 : cs =
          (cs.takeWhile fun c => c ≠ '/') ++ (cs.dropWhile fun c => c ≠ '/') :=
        (List.takeWhile_append_dropWhile _ _).symm
      have h2 : joinDots (splitOnDot (cs.takeWhile fun c => c ≠ '/')) =
          cs.takeWhile fun c => c ≠ '/' := joinDots_splitOnDot _
      have h3 := List.dropLast_append_getLast hne
      conv_lhs => rw [h1]
      rw [← joinDots_concat, h3, h2]
  · rintro ⟨labels, fin, path, hlne, hlab, hflen, hfalpha, hpath, rfl⟩
    have hblob : ∀ c ∈ (labels.map fun l => l ++ ['.']).flatten,
        (decide (c ≠ '/')) = true := by
      intro c hc
      rw [List.mem_flatten] at hc
      obtain ⟨blk, hblk, hcin⟩ := hc
      rw [List.mem_map] at hblk
      obtain ⟨l, hlmem, rfl⟩ := hblk
      rw [List.mem_append] at hcin
      rcases hcin with hcl | hcd
      · have h2 := (hlab l hlmem).2 c hcl
        refine decide_eq_true fun he => ?_
        rw [he] at h2
        exact absurd h2 (by decide)
      · have h2 : c = '.' := by simpa using hcd
        subst h2
        decide
    have hfinc : ∀ c ∈ fin, (decide (c ≠ '/')) = true := by
      intro c hc
      have h2 := hfalpha c hc
      refine decide_eq_true fun he => ?_
      rw [he] at h2
      exact absurd h2 (by decide)
    have hallbf : ∀ c ∈ (labels.map fun l => l ++ ['.']).flatten ++ fin,
        (decide (c ≠ '/')) = true := by
      intro c hc
      rw [List.mem_append] at hc
      rcases hc with h2 | h2
      · exact hblob c h2
      · exact hfinc c h2
    have hfindot : '.' ∉ fin := fun hm =>
      absurd (hfalpha '.' hm) (by decide)
    have hsplit := splitOnDot_blob labels fin (fun l hl => (hlab l hl).2) hfindot
    have hdompart : domainPartOk
        ((labels.map fun l => l ++ ['.']).flatten ++ fin) = true := by
      unfold domainPartOk
      rw [hsplit]
      simp only [Bool.and_eq_true]
      refine ⟨⟨?_, ?_⟩, ?_⟩
      · refine decide_eq_true ?_
        have : 1 ≤ labels.length := by
          cases labels with
          | nil => exact absurd rfl hlne
          | cons a b => simp
        simp [List.length_append]
        omega
      · rw [List.dropLast_concat]
        refine List.all_eq_true.mpr fun l hl => ?_
        rw [Bool.and_eq_true]
        exact ⟨by simpa using (hlab l hl).1,
          List.all_eq_true.mpr fun c hc => (hlab l hl).2 c hc⟩
      · rw [List.getLast?_concat]
        rw [Bool.and_eq_true]
        exact ⟨decide_eq_true hflen, List.all_eq_true.mpr hfalpha⟩
    rcases hpath with rfl | ⟨r, rfl, hr⟩
    · unfold matchesDomainPattern
      rw [List.append_nil]
      have htake : (((labels.map fun l => l ++ ['.']).flatten ++ fin).takeWhile
          fun c => c ≠ '/') = (labels.map fun l => l ++ ['.']).flatten ++ fin := by
        have h2 := takeWhile_append_of_all (fun c => c ≠ '/')
          ((labels.map fun l => l ++ ['.']).flatten ++ fin) [] hallbf
        simpa using h2
      have hdrop : (((labels.map fun l => l ++ ['.']).flatten ++ fin).dropWhile
          fun c => c ≠ '/') = [] := by
        have h2 := dropWhile_append_of_all (fun c => c ≠ '/')
          ((labels.map fun l => l ++ ['.']).flatten ++ fin) [] hallbf
        simpa using h2
      rw [htake, hdrop, hdompart]
      simp [pathPartOk]
    · unfold matchesDomainPattern
      have hslash : (decide (('/' : Char) ≠ '/')) = false := by decide
      have htake : ((((labels.map fun l => l ++ ['.']).flatten ++ fin) ++
          ('/' :: r)).takeWhile fun c => c ≠ '/') =
          (labels.map fun l => l ++ ['.']).flatten ++ fin := by
        rw [takeWhile_append_of_all _ _ _ hallbf]
        rw [List.takeWhile_cons, hslash]
        simp
      have hdrop : ((((labels.map fun l => l ++ ['.']).flatten ++ fin) ++
          ('/' :: r)).dropWhile fun c => c ≠ '/') = '/' :: r := by
        rw [dropWhile_append_of_all _ _ _ hallbf]
        rw [List.dropWhile_cons, hslash]
        simp
      rw [htake, hdrop, hdompart]
      simp only [pathPartOk, Bool.true_and]
      exact List.all_eq_true.mpr fun c hc => by simp [hr c hc]

/-- C6: `isValidDomain` accepts exactly the trimmed strings of the shape
"one or more labels of alphanumerics and hyphens each followed by a dot,
then a final label of at least two alphabetic characters, optionally
followed by a path suffix"; and `submit` rejects an empty or invalid
draft with a validation message before any remote call, leaving the state
unchanged. -/
theorem C6_validate (d : String) (st : DialogState) (uresp : ApiResponse Unit)
    (cresp : ApiResponse DomainEntry) :
    (isValidDomain d = true ↔ DomainShape (jsTrim d).toList) ∧
    (jsTrim st.newDomain = "" →
      handleAddOrUpdateDomain uresp cresp st =
        .ok ⟨st, ["Please enter a domain"], []⟩) ∧
    (jsTrim st.newDomain ≠ "" → isValidDomain (jsTrim st.newDomain) = false →
      handleAddOrUpdateDomain uresp cresp st =
        .ok ⟨st, ["Please enter a valid domain"], []⟩) := by
  refine ⟨?_, ?_, ?_⟩
  · exact matchesDomainPattern_iff (jsTrim d).toList
  · intro h
    simp [handleAddOrUpdateDomain, h]
  · intro hne hval
    simp [handleAddOrUpdateDomain, hne, hval]

theorem C6_validate_witness :
    DomainShape (jsTrim "example.com").toList ∧
    handleAddOrUpdateDomain (.ok ()) (.badStatus none) ⟨" ", [], none⟩ =
      .ok ⟨⟨" ", [], none⟩, ["Please enter a domain"], []⟩ := by
  have h := C6_validate "example.com" ⟨" ", [], none⟩ (.ok ()) (.badStatus none)
  exact ⟨h.1.mp (by decide), h.2.1 (by decide)⟩


theorem upsertOwn_map_fst (acc : Groups) (r : ResourceRecord) :
    (upsertOwn acc r).map Prod.fst =
      if (acc.map Prod.fst).any (fun k => k == recordKey r) then acc.map Prod.fst
      else acc.map Prod.fst ++ [recordKey r] := by
  have hcond : (acc.map Prod.fst).any (fun k => k == recordKey r) =
      acc.any (fun p => p.1 == recordKey r) := by
    induction acc with
    | nil => rfl
    | cons p ps ih => simp only [List.map_cons, List.any_cons, ih]
  rw [hcond]
  unfold upsertOwn
  by_cases h : acc.any (fun p => p.1 == recordKey r) = true
  · rw [if_pos h, if_pos h, List.map_map]
    have hfun : (Prod.fst ∘ fun p : String × List ResourceRecord =>
        if p.1 == recordKey r then (p.1, p.2 ++ [r]) else p) = Prod.fst := by
      funext p
      dsimp only [Function.comp]
      split <;> rfl
    rw [hfun]
  · rw [if_neg h, if_neg h, List.map_append]
    rfl

theorem classifyOwn_map_fst_aux (rs : List ResourceRecord) :
    ∀ acc : Groups,
      (rs.foldl upsertOwn acc).map Prod.fst =
        rs.foldl
          (fun ks r =>
            if ks.any (fun k => k == recordKey r) then ks else ks ++ [recordKey r])
          (acc.map Prod.fst) := by
  induction rs with
  | nil => intro acc; rfl
  | cons r rs ih =>
    intro acc
    simp only [List.foldl_cons]
    rw [ih (upsertOwn acc r), upsertOwn_map_fst]

theorem classifyOwn_map_fst (rs : List ResourceRecord) :
    (classifyOwn rs).map Prod.fst = firstKeys rs :=
  classifyOwn_map_fst_aux rs []

theorem groupOf_upsertOwn (acc : Groups) (r : ResourceRecord) (t : String) :
    groupOf (upsertOwn acc r) t =
      if recordKey r == t then groupOf acc t ++ [r] else groupOf acc t := by
  unfold upsertOwn
  by_cases hmem : acc.any (fun p => p.1 == recordKey r) = true
  · rw [if_pos hmem]
    have hpred : ((fun p : String × List ResourceRecord => p.1 == t) ∘
        fun q => if q.1 == recordKey r then (q.1, q.2 ++ [r]) else q) =
        fun p : String × List ResourceRecord => p.1 == t := by
      funext q
      dsimp only [Function.comp]
      split <;> rfl
    have hfind : (acc.map fun q =>
        if q.1 == recordKey r then (q.1, q.2 ++ [r]) else q).find?
          (fun p => p.1 == t) =
        (acc.find? fun p => p.1 == t).map
          (fun q => if q.1 == recordKey r then (q.1, q.2 ++ [r]) else q) := by
      rw [List.find?_map, hpred]
    unfold groupOf
    rw [hfind]
    by_cases hkt : (recordKey r == t) = true
    · rw [if_pos hkt]
      cases hf : acc.find? (fun p => p.1 == t) with
      | none =>
        exfalso
        rcases List.any_eq_true.mp hmem with ⟨q, hqmem, hqk⟩
        have hqt : (q.1 == t) = true := by
          rw [eq_of_beq hqk, eq_of_beq hkt]
          exact beq_self_eq_true _
        exact (List.find?_eq_none.mp hf q hqmem) hqt
      | some q =>
        have hqt := List.find?_some hf
        have hqk : (q.1 == recordKey r) = true := by
          rw [eq_of_beq hqt, eq_of_beq hkt]
          exact beq_self_eq_true _
        show (if q.1 == recordKey r then (q.1, q.2 ++ [r]) else q).2 = q.2 ++ [r]
        rw [if_pos hqk]
    · rw [if_neg hkt]
      cases hf : acc.find? (fun p => p.1 == t) with
      | none => rfl
      | some q =>
        have hqt := List.find?_some hf
        have hqk : (q.1 == recordKey r) = false := by
          by_cases h2 : (q.1 == recordKey r) = true
          · exfalso
            apply (by simpa using hkt : ¬ (recordKey r == t) = true)
            rw [← eq_of_beq h2]
            exact hqt
          · simpa using h2
        show (if q.1 == recordKey r then (q.1, q.2 ++ [r]) else q).2 = q.2
        rw [if_neg (by simp [hqk])]
  · rw [if_neg hmem]
    unfold groupOf
    rw [List.find?_append]
    by_cases hkt : (recordKey r == t) = true
    · rw [if_pos hkt]
      have haccnone : acc.find? (fun p => p.1 == t) = none := by
        apply List.find?_eq_none.mpr
        intro q hq hqt
        apply hmem
        refine List.any_eq_true.mpr ⟨q, hq, ?_⟩
        rw [eq_of_beq hqt, eq_of_beq hkt]
        exact beq_self_eq_true _
      rw [haccnone]
      have hfind2 : List.find? (fun p : String × List ResourceRecord => p.1 == t)
          [(recordKey r, [r])] = some (recordKey r, [r]) := by
        simp [List.find?, hkt]
      rw [hfind2]
      rfl
    · rw [if_neg hkt]
      have hsing : ([(recordKey r, [r])] : Groups).find? (fun p => p.1 == t) =
          none := by
        apply List.find?_eq_none.mpr
        intro q hq hqt
        have hq2 : q = (recordKey r, [r]) := List.mem_singleton.mp hq
        rw [hq2] at hqt
        exact (by simpa using hkt : ¬ _) hqt
      rw [hsing]
      simp

theorem groupOf_foldl (rs : List ResourceRecord) :
    ∀ (acc : Groups) (t : String),
      groupOf (rs.foldl upsertOwn acc) t =
        groupOf acc t ++ rs.filter fun r => recordKey r == t := by
  induction rs with
  | nil => intro acc t; simp
  | cons r rs ih =>
    intro acc t
    simp only [List.foldl_cons, List.filter_cons]
    rw [ih (upsertOwn acc r), groupOf_upsertOwn]
    by_cases h : (recordKey r == t) = true
    · rw [if_pos h, if_pos h, List.append_assoc, List.singleton_append]
    · rw [if_neg h, if_neg h]

theorem groupOf_classifyOwn (rs : List ResourceRecord) (t : String) :
    groupOf (classifyOwn rs) t = rs.filter fun r => recordKey r == t := by
  have h := groupOf_foldl rs [] t
  simpa [classifyOwn] using h

theorem classifyOwn_snd_ne_nil (rs0 : List ResourceRecord) :
    ∀ p ∈ classifyOwn rs0, p.2 ≠ [] := by
  suffices h : ∀ (rs : List ResourceRecord) (acc : Groups),
      (∀ p ∈ acc, p.2 ≠ []) → ∀ p ∈ rs.foldl upsertOwn acc, p.2 ≠ [] by
    exact h rs0 [] (by simp)
  intro rs
  induction rs with
  | nil => intro acc hacc; simpa using hacc
  | cons r rs ih =>
    intro acc hacc
    simp only [List.foldl_cons]
    apply ih
    intro p hp
    unfold upsertOwn at hp
    by_cases hmem : acc.any (fun q => q.1 == recordKey r) = true
    · rw [if_pos hmem] at hp
      rcases List.mem_map.mp hp with ⟨q, hq, rfl⟩
      by_cases hqk : (q.1 == recordKey r) = true
      · rw [if_pos hqk]
        simp
      · rw [if_neg hqk]
        exact hacc q hq
    · rw [if_neg hmem] at hp
      rcases List.mem_append.mp hp with hq | hq
      · exact hacc p hq
      · have hq2 : p = (recordKey r, [r]) := List.mem_singleton.mp hq
        rw [hq2]
        simp

theorem classifyOwn_nodup_fst (rs0 : List ResourceRecord) :
    ((classifyOwn rs0).map Prod.fst).Nodup := by
  suffices h : ∀ (rs : List ResourceRecord) (acc : Groups),
      (acc.map Prod.fst).Nodup → ((rs.foldl upsertOwn acc).map Prod.fst).Nodup by
    exact h rs0 [] (by simp)
  intro rs
  induction rs with
  | nil => intro acc h; simpa using h
  | cons r rs ih =>
    intro acc h
    simp only [List.foldl_cons]
    apply ih
    rw [upsertOwn_map_fst]
    by_cases hmem : (acc.map Prod.fst).any (fun k => k == recordKey r) = true
    · rw [if_pos hmem]
      exact h
    · rw [if_neg hmem]
      have hk : recordKey r ∉ acc.map Prod.fst := by
        intro hmem2
        exact (by simpa using hmem : ¬ _)
          (List.any_eq_true.mpr ⟨recordKey r, hmem2, beq_self_eq_true _⟩)
      rw [List.nodup_append]
      refine ⟨h, List.nodup_singleton _, ?_⟩
      intro a ha hamem
      rw [List.mem_singleton.mp hamem] at ha
      exact hk ha

theorem objectKeys_no_index (m : Groups)
    (h : ∀ t ∈ m.map Prod.fst, isArrayIndexKey t = false) :
    objectKeys m = m.map Prod.fst := by
  have h1 : (m.map Prod.fst).filter (fun k => isArrayIndexKey k) = [] := by
    rw [List.filter_eq_nil_iff]
    intro a ha
    simp [h a ha]
  have h2 : (m.map Prod.fst).filter (fun k => !isArrayIndexKey k) =
      m.map Prod.fst := by
    rw [List.filter_eq_self]
    intro a ha
    simp [h a ha]
  show sortByNat ((m.map Prod.fst).filter fun k => isArrayIndexKey k) ++
      ((m.map Prod.fst).filter fun k => !isArrayIndexKey k) = m.map Prod.fst
  rw [h1, h2]
  rfl

theorem upsertOwn_fst_no_proto (acc : Groups) (r : ResourceRecord)
    (hacc : ∀ p ∈ acc, isProtoKey p.1 = false)
    (hr : isProtoKey (recordKey r) = false) :
    ∀ p ∈ upsertOwn acc r, isProtoKey p.1 = false := by
  intro p hp
  unfold upsertOwn at hp
  by_cases h : acc.any (fun q => q.1 == recordKey r) = true
  · rw [if_pos h] at hp
    rcases List.mem_map.mp hp with ⟨q, hq, rfl⟩
    by_cases hq2 : (q.1 == recordKey r) = true
    · rw [if_pos hq2]
      exact hacc q hq
    · rw [if_neg hq2]
      exact hacc q hq
  · rw [if_neg h] at hp
    rcases List.mem_append.mp hp with hq | hq
    · exact hacc p hq
    · have h2 : p = (recordKey r, [r]) := List.mem_singleton.mp hq
      rw [h2]
      exact hr

theorem upsert_eq_own (acc : Groups) (r : ResourceRecord)
    (h : isProtoKey (recordKey r) = false) :
    upsert acc r = .ok (upsertOwn acc r) := by
  simp only [upsert, upsertOwn]
  by_cases h2 : acc.any (fun p => p.1 == recordKey r) = true
  · rw [if_pos h2, if_pos h2]
  · rw [if_neg h2, if_neg h2, if_neg (by simp [h])]

theorem classifyFold_eq_own (rs : List ResourceRecord) :
    ∀ acc : Groups, (∀ p ∈ acc, isProtoKey p.1 = false) →
      (∀ r ∈ rs, isProtoKey (recordKey r) = false) →
      classifyFold acc rs = .ok (rs.foldl upsertOwn acc) := by
  induction rs with
  | nil => intro acc _ _; rfl
  | cons r rest ih =>
    intro acc hacc hrs
    have hr : isProtoKey (recordKey r) = false := hrs r (List.mem_cons_self _ _)
    show (match upsert acc r with
      | .ok acc2 => classifyFold acc2 rest
      | .error e => .error e) = _
    rw [upsert_eq_own acc r hr]
    simp only [List.foldl_cons]
    exact ih (upsertOwn acc r) (upsertOwn_fst_no_proto acc r hacc hr)
      fun r2 h2 => hrs r2 (List.mem_cons_of_mem _ h2)

theorem classifyAssoc_eq_own (rs : List ResourceRecord)
    (h : ∀ r ∈ rs, isProtoKey (recordKey r) = false) :
    classifyAssoc rs = .ok (classifyOwn rs) :=
  classifyFold_eq_own rs [] (by intro p hp; simp at hp) h

theorem classifyFold_error (rs : List ResourceRecord) :
    ∀ acc : Groups, (∀ p ∈ acc, isProtoKey p.1 = false) →
      (∃ r ∈ rs, isProtoKey (recordKey r) = true) →
      classifyFold acc rs = .error () := by
  induction rs with
  | nil =>
    intro acc _ hex
    rcases hex with ⟨r, hr, _⟩
    simp at hr
  | cons r rest ih =>
    intro acc hacc hex
    by_cases hr : isProtoKey (recordKey r) = true
    · have hany : acc.any (fun p => p.1 == recordKey r) = false := by
        by_cases h2 : acc.any (fun p => p.1 == recordKey r) = true
        · rcases List.any_eq_true.mp h2 with ⟨q, hq, hqk⟩
          have h3 := hacc q hq
          rw [eq_of_beq hqk] at h3
          rw [h3] at hr
          exact absurd hr (by decide)
        · exact Bool.eq_false_iff.mpr h2
      have hup : upsert acc r = .error () := by
        simp only [upsert]
        rw [if_neg (by simp [hany]), if_pos hr]
      show (match upsert acc r with
        | .ok acc2 => classifyFold acc2 rest
        | .error e => .error e) = .error ()
      rw [hup]
    · have hr2 : isProtoKey (recordKey r) = false := Bool.eq_false_iff.mpr hr
      show (match upsert acc r with
        | .ok acc2 => classifyFold acc2 rest
        | .error e => .error e) = .error ()
      rw [upsert_eq_own acc r hr2]
      rcases hex with ⟨r2, hr2mem, hr2p⟩
      rcases List.mem_cons.mp hr2mem with h3 | h3
      · rw [h3] at hr2p
        exact absurd hr2p hr
      · exact ih (upsertOwn acc r) (upsertOwn_fst_no_proto acc r hacc hr2)
          ⟨r2, h3, hr2p⟩

theorem classifyAssoc_error (rs : List ResourceRecord)
    (hex : ∃ r ∈ rs, isProtoKey (recordKey r) = true) :
    classifyAssoc rs = .error () :=
  classifyFold_error rs [] (by intro p hp; simp at hp) hex

/-- C3 (counterexample): `classify` is neither total nor always
first-occurrence ordered.  Ordering: JS objects enumerate array-index
keys first in ascending numeric order, so records with types "2" then
"1" yield `types = ["1", "2"]` although "2" occurs first in the input.
Totality: a record typed "toString" makes `!acc[type]` read the truthy
inherited `Object.prototype.toString`, so no array is created and
`.push` on it throws `TypeError` instead of grouping the record. -/
theorem C3_classify_counterexample :
    requestTypes ⟨"", [], none,
        some ⟨[⟨some "2", "u1", true⟩, ⟨some "1", "u2", true⟩], []⟩⟩ =
      .ok ["1", "2"] ∧
    firstKeys [⟨some "2", "u1", true⟩, ⟨some "1", "u2", true⟩] = ["2", "1"] ∧
    ((.ok ["1", "2"] : Except Unit (List String)) ≠ .ok ["2", "1"]) ∧
    requestTypes ⟨"", [], none,
        some ⟨[⟨some "toString", "u1", true⟩], []⟩⟩ = .error () := by
  decide

/-- C3 (amended): `classify` is deterministic, but total only on record
sequences whose grouping keys avoid the `Object.prototype` property
names — on any sequence containing such a key it throws a `TypeError`.
On sequences avoiding them it groups by `record.type`: records carrying
no type (absent or empty) go under "UNKNOWN" and unrecognized values
keep their own keys; each group lists its records in input order (it
equals the input filtered to that key); empty input yields empty types
and groups; and the `types` list preserves first-occurrence order of the
input whenever additionally no grouping key is an integer-like
(array-index) string — integer-like keys are enumerated first in
ascending numeric order per JS object semantics. -/
theorem C3_classify_amended (rs : List ResourceRecord) (links : List String)
    (u : String) (ds : List String) (sel : Option String)
    (hproto : ∀ r ∈ rs, isProtoKey (recordKey r) = false)
    (h : ∀ t ∈ firstKeys rs, isArrayIndexKey t = false) :
    groupedRequests ⟨u, ds, sel, some ⟨rs, links⟩⟩ = .ok (classifyOwn rs) ∧
    requestTypes ⟨u, ds, sel, some ⟨rs, links⟩⟩ = .ok (firstKeys rs) ∧
    (∀ t, groupOf (classifyOwn rs) t = rs.filter fun r => recordKey r == t) ∧
    (∀ r ∈ rs, r.type = none → r ∈ groupOf (classifyOwn rs) "UNKNOWN") ∧
    requestTypes ⟨u, ds, sel, some ⟨[], links⟩⟩ = .ok [] ∧
    groupedRequests ⟨u, ds, sel, some ⟨[], links⟩⟩ = .ok [] ∧
    (∀ (rs2 : List ResourceRecord) (links2 : List String),
      (∃ r ∈ rs2, isProtoKey (recordKey r) = true) →
      groupedRequests ⟨u, ds, sel, some ⟨rs2, links2⟩⟩ = .error ()) := by
  have hok : classifyAssoc rs = .ok (classifyOwn rs) :=
    classifyAssoc_eq_own rs hproto
  have htypes : objectKeys (classifyOwn rs) = firstKeys rs := by
    rw [objectKeys_no_index (classifyOwn rs)
        (by rw [classifyOwn_map_fst]; exact h),
      classifyOwn_map_fst]
  refine ⟨hok, ?_, ?_, ?_, rfl, rfl, ?_⟩
  · have e1 : requestTypes ⟨u, ds, sel, some ⟨rs, links⟩⟩ =
        .ok (objectKeys (classifyOwn rs)) := by
      simp only [requestTypes, groupedRequests, hok]
    rw [e1, htypes]
  · intro t
    exact groupOf_classifyOwn rs t
  · intro r hr htype
    rw [groupOf_classifyOwn]
    exact List.mem_filter.mpr ⟨hr, by simp [recordKey, htype]⟩
  · intro rs2 links2 hex
    show classifyAssoc rs2 = .error ()
    exact classifyAssoc_error rs2 hex

theorem C3_classify_amended_witness :
    requestTypes ⟨"", [], none, some ⟨[⟨some "IMAGE", "u1", true⟩,
        ⟨some "JS", "u2", true⟩, ⟨some "IMAGE", "u3", false⟩], []⟩⟩ =
      .ok ["IMAGE", "JS"] ∧
    groupOf (classifyOwn [⟨some "IMAGE", "u1", true⟩,
        ⟨some "JS", "u2", true⟩, ⟨some "IMAGE", "u3", false⟩]) "IMAGE" =
      [⟨some "IMAGE", "u1", true⟩, ⟨some "IMAGE", "u3", false⟩] := by
  have h := C3_classify_amended [⟨some "IMAGE", "u1", true⟩,
    ⟨some "JS", "u2", true⟩, ⟨some "IMAGE", "u3", false⟩] [] "" [] none
    (by decide) (by decide)
  exact ⟨h.2.1.trans (by decide), (h.2.2.1 "IMAGE").trans (by decide)⟩

theorem groupOf_cons (x : String × List ResourceRecord) (m : Groups)
    (t : String) :
    groupOf (x :: m) t = if x.1 == t then x.2 else groupOf m t := by
  by_cases h : (x.1 == t) = true
  · have hf : List.find? (fun p : String × List ResourceRecord => p.1 == t)
        (x :: m) = some x := by simp [List.find?, h]
    unfold groupOf
    rw [hf, if_pos h]
    rfl
  · have h2 : (x.1 == t) = false := by simpa using h
    have hf : List.find? (fun p : String × List ResourceRecord => p.1 == t)
        (x :: m) = List.find? (fun p => p.1 == t) m := by simp [List.find?, h2]
    unfold groupOf
    rw [hf, if_neg h]

theorem insertByNat_perm (x : String) (l : List String) :
    (insertByNat x l).Perm (x :: l) := by
  induction l with
  | nil => exact List.Perm.refl _
  | cons y ys ih =>
    unfold insertByNat
    by_cases h : (keyToNat? x.toList).getD 0 ≤ (keyToNat? y.toList).getD 0
    · rw [if_pos h]
    · rw [if_neg h]
      exact (ih.cons y).trans (List.Perm.swap x y ys)

theorem sortByNat_perm (l : List String) : (sortByNat l).Perm l := by
  induction l with
  | nil => exact List.Perm.refl _
  | cons x xs ih => exact (insertByNat_perm x (sortByNat xs)).trans (ih.cons x)

theorem insertByNat_pairwise (x : String) (l : List String)
    (h : l.Pairwise fun a b =>
      (keyToNat? a.toList).getD 0 ≤ (keyToNat? b.toList).getD 0) :
    (insertByNat x l).Pairwise fun a b =>
      (keyToNat? a.toList).getD 0 ≤ (keyToNat? b.toList).getD 0 := by
  induction l with
  | nil => simp [insertByNat]
  | cons y ys ih =>
    unfold insertByNat
    obtain ⟨hhead, htail⟩ := List.pairwise_cons.mp h
    by_cases hxy : (keyToNat? x.toList).getD 0 ≤ (keyToNat? y.toList).getD 0
    · rw [if_pos hxy]
      refine List.Pairwise.cons ?_ h
      intro b hb
      rcases List.mem_cons.mp hb with rfl | hb2
      · exact hxy
      · exact le_trans hxy (hhead b hb2)
    · rw [if_neg hxy]
      have hyx : (keyToNat? y.toList).getD 0 ≤ (keyToNat? x.toList).getD 0 :=
        (Nat.le_total _ _).resolve_left hxy
      refine List.Pairwise.cons ?_ (ih htail)
      intro b hb
      have hb2 : b ∈ x :: ys := (insertByNat_perm x ys).mem_iff.mp hb
      rcases List.mem_cons.mp hb2 with rfl | hb3
      · exact hyx
      · exact hhead b hb3

theorem sortByNat_pairwise (l : List String) :
    (sortByNat l).Pairwise fun a b =>
      (keyToNat? a.toList).getD 0 ≤ (keyToNat? b.toList).getD 0 := by
  induction l with
  | nil => simp [sortByNat]
  | cons x xs ih => exact insertByNat_pairwise x (sortByNat xs) ih

theorem sortByNat_of_pairwise (l : List String)
    (h : l.Pairwise fun a b =>
      (keyToNat? a.toList).getD 0 ≤ (keyToNat? b.toList).getD 0) :
    sortByNat l = l := by
  induction l with
  | nil => rfl
  | cons x xs ih =>
    obtain ⟨hhead, htail⟩ := List.pairwise_cons.mp h
    show insertByNat x (sortByNat xs) = x :: xs
    rw [ih htail]
    cases xs with
    | nil => rfl
    | cons y ys =>
      unfold insertByNat
      rw [if_pos (hhead y (List.mem_cons_self _ _))]

theorem objectKeys_perm (m : Groups) :
    (objectKeys m).Perm (m.map Prod.fst) := by
  show (sortByNat ((m.map Prod.fst).filter fun k => isArrayIndexKey k) ++
    ((m.map Prod.fst).filter fun k => !isArrayIndexKey k)).Perm (m.map Prod.fst)
  exact ((sortByNat_perm _).append (List.Perm.refl _)).trans
    (List.filter_append_perm _ _)

theorem mem_objectKeys (m : Groups) (t : String) :
    t ∈ objectKeys m ↔ t ∈ m.map Prod.fst :=
  (objectKeys_perm m).mem_iff

theorem objectKeys_of_map_fst (m bs : Groups)
    (h : bs.map Prod.fst = objectKeys m) :
    objectKeys bs = objectKeys m := by
  have hA : ∀ x ∈ sortByNat ((m.map Prod.fst).filter fun k => isArrayIndexKey k),
      isArrayIndexKey x = true := by
    intro x hx
    exact (List.mem_filter.mp ((sortByNat_perm _).mem_iff.mp hx)).2
  have hB : ∀ x ∈ (m.map Prod.fst).filter (fun k => !isArrayIndexKey k),
      isArrayIndexKey x = false := by
    intro x hx
    simpa using (List.mem_filter.mp hx).2
  show sortByNat ((bs.map Prod.fst).filter fun k => isArrayIndexKey k) ++
      ((bs.map Prod.fst).filter fun k => !isArrayIndexKey k) = objectKeys m
  rw [h]
  have hm : objectKeys m =
      sortByNat ((m.map Prod.fst).filter fun k => isArrayIndexKey k) ++
        ((m.map Prod.fst).filter fun k => !isArrayIndexKey k) := rfl
  rw [hm, List.filter_append, List.filter_append]
  have h1 : (sortByNat ((m.map Prod.fst).filter fun k =>
      isArrayIndexKey k)).filter (fun k => isArrayIndexKey k) =
      sortByNat ((m.map Prod.fst).filter fun k => isArrayIndexKey k) := by
    rw [List.filter_eq_self]
    intro a ha
    exact hA a ha
  have h2 : ((m.map Prod.fst).filter (fun k => !isArrayIndexKey k)).filter
      (fun k => isArrayIndexKey k) = [] := by
    rw [List.filter_eq_nil_iff]
    intro a ha
    simp [hB a ha]
  have h3 : (sortByNat ((m.map Prod.fst).filter fun k =>
      isArrayIndexKey k)).filter (fun k => !isArrayIndexKey k) = [] := by
    rw [List.filter_eq_nil_iff]
    intro a ha
    simp [hA a ha]
  have h4 : ((m.map Prod.fst).filter (fun k => !isArrayIndexKey k)).filter
      (fun k => !isArrayIndexKey k) =
      (m.map Prod.fst).filter (fun k => !isArrayIndexKey k) := by
    rw [List.filter_eq_self]
    intro a ha
    simp [hB a ha]
  rw [h1, h2, h3, h4, List.append_nil, List.nil_append,
    sortByNat_of_pairwise _ (sortByNat_pairwise _)]

theorem map_bump_eq_self (acc : Groups) (k : String) (r : ResourceRecord)
    (hacc : ∀ p ∈ acc, (p.1 == k) = false) :
    acc.map (fun q => if q.1 == k then (q.1, q.2 ++ [r]) else q) = acc := by
  induction acc with
  | nil => rfl
  | cons q qs ih =>
    simp only [List.map_cons]
    rw [if_neg (by simp [hacc q (List.mem_cons_self _ _)]),
      ih fun p hp => hacc p (List.mem_cons_of_mem _ hp)]

theorem foldl_upsertOwn_block_aux (k : String) (g : List ResourceRecord) :
    ∀ (acc : Groups) (h : List ResourceRecord),
      (∀ r ∈ g, recordKey r = k) →
      (∀ p ∈ acc, (p.1 == k) = false) →
      g.foldl upsertOwn (acc ++ [(k, h)]) = acc ++ [(k, h ++ g)] := by
  induction g with
  | nil =>
    intro acc h _ _
    simp
  | cons r g ih =>
    intro acc h hg hacc
    simp only [List.foldl_cons]
    have hk : recordKey r = k := hg r (List.mem_cons_self _ _)
    have hup : upsertOwn (acc ++ [(k, h)]) r = acc ++ [(k, h ++ [r])] := by
      unfold upsertOwn
      rw [hk]
      have hany : (acc ++ [(k, h)]).any (fun p => p.1 == k) = true :=
        List.any_eq_true.mpr ⟨(k, h), by simp, beq_self_eq_true _⟩
      rw [if_pos hany, List.map_append, map_bump_eq_self acc k r hacc]
      congr 1
      simp
    rw [hup, ih acc (h ++ [r]) (fun r2 h2 => hg r2 (List.mem_cons_of_mem _ h2))
      hacc]
    simp [List.append_assoc]

theorem foldl_upsertOwn_fresh_block (k : String) (g : List ResourceRecord)
    (acc : Groups) (hg : ∀ r ∈ g, recordKey r = k) (hgne : g ≠ [])
    (hacc : ∀ p ∈ acc, (p.1 == k) = false) :
    g.foldl upsertOwn acc = acc ++ [(k, g)] := by
  cases g with
  | nil => exact absurd rfl hgne
  | cons r g2 =>
    have hk : recordKey r = k := hg r (List.mem_cons_self _ _)
    have hup : upsertOwn acc r = acc ++ [(k, [r])] := by
      unfold upsertOwn
      rw [hk]
      have hany : acc.any (fun p => p.1 == k) = false := by
        by_cases h2 : acc.any (fun p => p.1 == k) = true
        · rcases List.any_eq_true.mp h2 with ⟨q, hq, hqk⟩
          exact absurd (hacc q hq) (by simp [hqk])
        · exact Bool.eq_false_iff.mpr h2
      rw [if_neg (by simp [hany])]
    rw [List.foldl_cons, hup,
      foldl_upsertOwn_block_aux k g2 acc [r]
        (fun r2 h2 => hg r2 (List.mem_cons_of_mem _ h2)) hacc]
    rfl

theorem classifyOwn_blocks (bs : Groups) :
    ∀ acc : Groups,
      (bs.map Prod.fst).Nodup →
      (∀ p ∈ bs, ∀ r ∈ p.2, recordKey r = p.1) →
      (∀ p ∈ bs, p.2 ≠ []) →
      (∀ p ∈ bs, ∀ q ∈ acc, (q.1 == p.1) = false) →
      ((bs.map Prod.snd).flatten).foldl upsertOwn acc = acc ++ bs := by
  induction bs with
  | nil =>
    intro acc _ _ _ _
    simp
  | cons b bs ih =>
    intro acc hnd hhom hne hfresh
    obtain ⟨k, g⟩ := b
    have hnd2 : (k :: bs.map Prod.fst).Nodup := by simpa using hnd
    have hknot : k ∉ bs.map Prod.fst := (List.nodup_cons.mp hnd2).1
    have hfresh2 : ∀ p ∈ bs, ∀ q ∈ acc ++ [(k, g)], (q.1 == p.1) = false := by
      intro p hp q hq
      rcases List.mem_append.mp hq with hq2 | hq2
      · exact hfresh p (List.mem_cons_of_mem _ hp) q hq2
      · have hq3 : q = (k, g) := List.mem_singleton.mp hq2
        subst hq3
        by_cases h3 : (k == p.1) = true
        · exact absurd (List.mem_map.mpr ⟨p, hp, (eq_of_beq h3).symm⟩) hknot
        · simpa using h3
    simp only [List.map_cons, List.flatten_cons]
    rw [List.foldl_append,
      foldl_upsertOwn_fresh_block k g acc
        (fun r hr => hhom (k, g) (List.mem_cons_self _ _) r hr)
        (hne (k, g) (List.mem_cons_self _ _))
        (fun q hq => hfresh (k, g) (List.mem_cons_self _ _) q hq),
      ih (acc ++ [(k, g)]) (List.nodup_cons.mp hnd2).2
        (fun p hp => hhom p (List.mem_cons_of_mem _ hp))
        (fun p hp => hne p (List.mem_cons_of_mem _ hp))
        hfresh2,
      List.append_assoc]
    rfl

theorem groupOf_map_pairs (ks : List String)
    (f : String → List ResourceRecord) (t : String) :
    groupOf (ks.map fun k => (k, f k)) t =
      if ks.any (fun k => k == t) then f t else [] := by
  induction ks with
  | nil => rfl
  | cons k ks ih =>
    simp only [List.map_cons, List.any_cons]
    rw [groupOf_cons]
    by_cases hk : (k == t) = true
    · rw [if_pos hk]
      simp only [hk, Bool.true_or, if_true]
      rw [eq_of_beq hk]
    · rw [if_neg hk]
      have hk2 : (k == t) = false := by simpa using hk
      simp only [hk2, Bool.false_or]
      exact ih

theorem groupOf_eq_nil_of_not_mem (m : Groups) (t : String)
    (h : t ∉ m.map Prod.fst) : groupOf m t = [] := by
  have h2 : m.find? (fun p => p.1 == t) = none :=
    List.find?_eq_none.mpr fun q hq hqt =>
      h (List.mem_map.mpr ⟨q, hq, eq_of_beq hqt⟩)
  unfold groupOf
  rw [h2]
  rfl

theorem groupOf_ne_nil_of_mem_fst (m : Groups) (t : String)
    (hne : ∀ p ∈ m, p.2 ≠ []) (ht : t ∈ m.map Prod.fst) :
    groupOf m t ≠ [] := by
  induction m with
  | nil => simp at ht
  | cons p ps ih =>
    rw [groupOf_cons]
    by_cases h : (p.1 == t) = true
    · rw [if_pos h]
      exact hne p (List.mem_cons_self _ _)
    · rw [if_neg h]
      apply ih fun q hq => hne q (List.mem_cons_of_mem _ hq)
      have ht2 : t ∈ p.1 :: ps.map Prod.fst := by
        rw [List.map_cons] at ht
        exact ht
      rcases List.mem_cons.mp ht2 with h2 | h2
      · subst h2
        exact absurd (beq_self_eq_true _) h
      · exact h2

/-- C9 (counterexample): classification is not total, so the idempotence
equation does not hold for every record sequence — a record whose type is
an `Object.prototype` property name makes the `reduce` throw `TypeError`
(`!acc["toString"]` reads the truthy inherited method), so `classify(rs)`
produces no view at all at this input and there is nothing to flatten and
regroup. -/
theorem C9_classify_counterexample :
    classifyAssoc [⟨some "toString", "u1", true⟩] = .error () ∧
    requestTypes ⟨"", [], none,
        some ⟨[⟨some "toString", "u1", true⟩], []⟩⟩ = .error () := by
  decide

/-- C9 (amended): for every record sequence whose grouping keys avoid the
`Object.prototype` property names (on any other sequence `classify`
throws a `TypeError` instead of producing a view), classification is
idempotent under flatten-and-regroup: flattening the view's groups in
the order of its `types` list and classifying the result reproduces the
same view — the `types` list is unchanged and every per-type group is
unchanged. -/
theorem C9_classify_idempotent (rs : List ResourceRecord)
    (links links2 : List String) (u : String) (ds : List String)
    (sel : Option String)
    (hproto : ∀ r ∈ rs, isProtoKey (recordKey r) = false) :
    ∃ m m',
      groupedRequests ⟨u, ds, sel, some ⟨rs, links⟩⟩ = .ok m ∧
      groupedRequests ⟨u, ds, sel, some ⟨flattenGroups m, links2⟩⟩ = .ok m' ∧
      objectKeys m' = objectKeys m ∧
      (∀ t, groupOf m' t = groupOf m t) ∧
      requestTypes ⟨u, ds, sel, some ⟨flattenGroups m, links2⟩⟩ =
        requestTypes ⟨u, ds, sel, some ⟨rs, links⟩⟩ := by
  have hok : classifyAssoc rs = .ok (classifyOwn rs) :=
    classifyAssoc_eq_own rs hproto
  have hflat : flattenGroups (classifyOwn rs) =
      ((((objectKeys (classifyOwn rs)).map
        fun k => (k, groupOf (classifyOwn rs) k))).map Prod.snd).flatten := by
    show ((objectKeys (classifyOwn rs)).map
      fun t => groupOf (classifyOwn rs) t).flatten = _
    rw [List.map_map]
    rfl
  have hbsfst : ((((objectKeys (classifyOwn rs)).map
      fun k => (k, groupOf (classifyOwn rs) k))).map Prod.fst) =
      objectKeys (classifyOwn rs) := by
    rw [List.map_map]
    exact List.map_id _
  have hnodup : (objectKeys (classifyOwn rs)).Nodup :=
    ((objectKeys_perm (classifyOwn rs)).nodup_iff).mpr
      (classifyOwn_nodup_fst rs)
  have hhom : ∀ p ∈ ((objectKeys (classifyOwn rs)).map
      fun k => (k, groupOf (classifyOwn rs) k)), ∀ r ∈ p.2,
      recordKey r = p.1 := by
    intro p hp r hr
    rcases List.mem_map.mp hp with ⟨k, hk, rfl⟩
    rw [groupOf_classifyOwn] at hr
    exact eq_of_beq (List.mem_filter.mp hr).2
  have hne2 : ∀ p ∈ ((objectKeys (classifyOwn rs)).map
      fun k => (k, groupOf (classifyOwn rs) k)), p.2 ≠ [] := by
    intro p hp
    rcases List.mem_map.mp hp with ⟨k, hk, rfl⟩
    exact groupOf_ne_nil_of_mem_fst _ _ (classifyOwn_snd_ne_nil rs)
      ((mem_objectKeys _ _).mp hk)
  have hclass : classifyOwn (flattenGroups (classifyOwn rs)) =
      (objectKeys (classifyOwn rs)).map
        fun k => (k, groupOf (classifyOwn rs) k) := by
    rw [hflat]
    have hres := classifyOwn_blocks
      ((objectKeys (classifyOwn rs)).map
        fun k => (k, groupOf (classifyOwn rs) k)) []
      (by rw [hbsfst]; exact hnodup) hhom hne2
      (by intro p _ q hq; simp at hq)
    simpa [classifyOwn] using hres
  have hmemrs : ∀ r2 ∈ flattenGroups (classifyOwn rs), r2 ∈ rs := by
    intro r2 hr2
    unfold flattenGroups at hr2
    rw [List.mem_flatten] at hr2
    obtain ⟨blk, hblk, hin⟩ := hr2
    rcases List.mem_map.mp hblk with ⟨k, hk, rfl⟩
    rw [groupOf_classifyOwn] at hin
    exact (List.mem_filter.mp hin).1
  have hok2 : classifyAssoc (flattenGroups (classifyOwn rs)) =
      .ok (classifyOwn (flattenGroups (classifyOwn rs))) :=
    classifyAssoc_eq_own _ fun r2 h2 => hproto r2 (hmemrs r2 h2)
  refine ⟨classifyOwn rs, (objectKeys (classifyOwn rs)).map
      fun k => (k, groupOf (classifyOwn rs) k), hok, ?_, ?_, ?_, ?_⟩
  · show classifyAssoc (flattenGroups (classifyOwn rs)) = .ok _
    rw [hok2, hclass]
  · exact objectKeys_of_map_fst (classifyOwn rs) _ hbsfst
  · intro t
    rw [groupOf_map_pairs]
    by_cases hmem : (objectKeys (classifyOwn rs)).any (fun k => k == t) = true
    · rw [if_pos hmem]
    · rw [if_neg hmem]
      have ht : t ∉ (classifyOwn rs).map Prod.fst := by
        intro h2
        exact (by simpa using hmem : ¬ _)
          (List.any_eq_true.mpr
            ⟨t, (mem_objectKeys _ _).mpr h2, beq_self_eq_true _⟩)
      exact (groupOf_eq_nil_of_not_mem _ _ ht).symm
  · have e1 : requestTypes ⟨u, ds, sel,
        some ⟨flattenGroups (classifyOwn rs), links2⟩⟩ =
        .ok (objectKeys ((objectKeys (classifyOwn rs)).map
          fun k => (k, groupOf (classifyOwn rs) k))) := by
      simp only [requestTypes, groupedRequests, hok2, hclass]
    have e2 : requestTypes ⟨u, ds, sel, some ⟨rs, links⟩⟩ =
        .ok (objectKeys (classifyOwn rs)) := by
      simp only [requestTypes, groupedRequests, hok]
    rw [e1, e2]
    exact congrArg Except.ok (objectKeys_of_map_fst (classifyOwn rs) _ hbsfst)

theorem C9_classify_idempotent_witness :
    ∃ m m',
      groupedRequests ⟨"", [], none, some ⟨[⟨some "IMAGE", "u1", true⟩,
        ⟨some "JS", "u2", true⟩], []⟩⟩ = .ok m ∧
      groupedRequests ⟨"", [], none, some ⟨flattenGroups m, []⟩⟩ = .ok m' ∧
      objectKeys m' = objectKeys m ∧
      (∀ t, groupOf m' t = groupOf m t) ∧
      requestTypes ⟨"", [], none, some ⟨flattenGroups m, []⟩⟩ =
        requestTypes ⟨"", [], none, some ⟨[⟨some "IMAGE", "u1", true⟩,
          ⟨some "JS", "u2", true⟩], []⟩⟩ :=
  C9_classify_idempotent [⟨some "IMAGE", "u1", true⟩,
    ⟨some "JS", "u2", true⟩] [] [] "" [] none (by decide)

end Tool1

